import Mathlib

/-!
Shallow embedding of the typesense-ts query-expression validators.

The source implements three validators (filter, sort, eval expressions) as
type-level programs over string literal types (src/lexer/filter.ts,
src/lexer/eval.ts, the sort lexer, src/lexer/token.ts, src/lexer/types.ts,
src/collection/base.ts).  The embedding translates each type-level
function into an executable Lean function over `List Char`:

* character strings of the source become `List Char`;
* a type-level function returning `true` or an error-message string
  becomes a function into `ValRes` (`valid`, or `invalid msg`);
* unbounded type-level recursion (the recursion of `Parse` through join
  clauses, and the self-recursion of the tokenizers) is made total with a
  fuel parameter; fuel exhaustion is the explicit result `diverge`
  (in TypeScript that case is an `excessively deep` instantiation error,
  i.e. no result at all).  The public entry points use fuel
  `length + 1`, which is enough for every terminating source run because
  every terminating tokenizer step consumes at least one character and
  every join recursion drops at least three characters.
-/

namespace TypesenseTs

/-- Convert a string literal to the character-list representation used
throughout the embedding. -/
def str (s : String) : List Char := s.data

/-! ## Data model (src/collection/base.ts) -/

/-- The field types of `FieldType` in src/collection/base.ts. -/
inductive FieldType where
  | string | int32 | int64 | float | bool
  | geopoint | geopointArr | stringArr | int32Arr | int64Arr
  | floatArr | boolArr | obj | objArr | auto | stringStar | image
deriving DecidableEq, Repr

/-- A collection field: `name`, `type` and the flags the validators read
(`sort`, `optional` as optional booleans, and the optional `reference`
string `"<collection>.<field>"` of a join field). -/
structure CollectionField where
  name : List Char
  type : FieldType
  sort : Option Bool := none
  optional : Option Bool := none
  reference : Option (List Char) := none
deriving DecidableEq, Repr

/-- A collection schema as consumed by the validators
(`OmitDefaultSortingField<Collection>`): its name and its field list. -/
structure CollectionSchema where
  name : List Char
  fields : List CollectionField
deriving DecidableEq, Repr

/-- The schema registry (`GlobalCollections`): the registered collection
schemas, keyed by their names. -/
def Registry : Type := List CollectionSchema

/-- Look a collection schema up by name (`GlobalCollections[Name]`). -/
def lookupCollection (reg : Registry) (n : List Char) : Option CollectionSchema :=
  List.find? (fun c => c.name = n) reg

/-- `FieldTypeMap` of src/collection/base.ts: the type of the field named
`n`, when the schema declares one. -/
def fieldTypeOf (schema : CollectionSchema) (n : List Char) : Option FieldType :=
  (List.find? (fun f => f.name = n) schema.fields).map (fun f => f.type)

/-- The reverse-index check `JoinedCollection extends CheckReferences[Name]`
of src/collection/base.ts (`IsFieldReferenced`/`HasReferencedFields`):
the registered collection `bName` declares a field whose `reference` is
`aName ++ "." ++ f.name` for some field `f` of the registered collection
`aName`. -/
def isReferencedIn (reg : Registry) (aName bName : List Char) : Bool :=
  match lookupCollection reg aName, lookupCollection reg bName with
  | some a, some b =>
    List.any a.fields (fun f =>
      List.any b.fields (fun g => g.reference = some (aName ++ '.' :: f.name)))
  | _, _ => false

/-- `SortableFields` of src/collection/base.ts, as a per-field test: the
field is sortable when `sort` is `true`, or when its type is one of the
`SortableTypes` (`int32`, `float`, `int64`) and `sort` is not
explicitly `false`. -/
def isSortableField (f : CollectionField) : Bool :=
  f.sort = some true ||
    ((f.type = FieldType.int32 || f.type = FieldType.float || f.type = FieldType.int64)
      && !(f.sort = some false))

/-- Membership of a name in `SortableFields<ExtractFields<Schema>>`. -/
def sortableName (schema : CollectionSchema) (n : List Char) : Bool :=
  List.any schema.fields (fun f => f.name = n && isSortableField f)

/-- Membership of a name among the schema's field names. -/
def isFieldName (schema : CollectionSchema) (n : List Char) : Bool :=
  List.any schema.fields (fun f => f.name = n)

/-! ## Shared scanner primitives (src/lexer/types.ts, src/lexer/token.ts) -/

/-- The `Char` union of src/lexer/token.ts: ASCII letters, `_`, `*`, `-`. -/
def isCharTok (c : Char) : Bool :=
  c.isAlpha || c = '_' || c = '*' || c = '-'

/-- The `Digit` union of src/lexer/token.ts. -/
def isDigitTok (c : Char) : Bool := c.isDigit

/-- The `NumericValue` union: a digit, `.`, or `-`. -/
def isNumericValue (c : Char) : Bool := isDigitTok c || c = '.' || c = '-'

/-- Helper loop of `ReadString`: after the first character, consume
characters that are `Char` or `Digit`. -/
def readStringAux : List Char → List Char → List Char × List Char
  | c :: rest, acc =>
    if isCharTok c || isDigitTok c then readStringAux rest (acc ++ [c])
    else (acc, c :: rest)
  | [], acc => (acc, [])

/-- `ReadString` of src/lexer/types.ts: the first character must be a
`Char`; later characters may also be digits.  Returns the consumed
prefix and the remainder (consuming nothing when the first character is
not a `Char`). -/
def readString : List Char → List Char × List Char
  | c :: rest => if isCharTok c then readStringAux rest [c] else ([], c :: rest)
  | [] => ([], [])

/-- Worker for `ReadNum` of src/lexer/types.ts, carrying the accumulator,
the `DotEncountered` flag and the `FirstCharProcessed` flag. -/
def readNumAux : List Char → List Char → Bool → Bool → List Char × List Char
  | '.' :: rest, acc, dot, first =>
    if dot then (acc, '.' :: rest)
    else if first then
      match rest with
      | next :: _ =>
        if isDigitTok next then readNumAux rest (acc ++ ['.']) true true
        else (acc, '.' :: rest)
      | [] => (acc, '.' :: rest)
    else (acc, '.' :: rest)
  | '-' :: rest, acc, dot, first =>
    if first then (acc, '-' :: rest)
    else readNumAux rest (acc ++ ['-']) dot true
  | c :: rest, acc, dot, _ =>
    if isDigitTok c then readNumAux rest (acc ++ [c]) dot true
    else (acc, c :: rest)
  | [], acc, _, _ => (acc, [])

/-- `ReadNum` of src/lexer/types.ts: an optional leading `-`, digits, and
at most one `.` that must be followed by a digit.  Anything else — in
particular a second `.`, or a leading `.` — is left unconsumed. -/
def readNum (t : List Char) : List Char × List Char :=
  readNumAux t [] false false

/-! ## Filter tokens (src/lexer/token.ts and src/lexer/filter.ts) -/

/-- The filter-grammar `Token` union. -/
inductive FToken where
  | lparen | rparen | land | lor
  | lt | gt | eq | gte | lte | neq
  | lsq | rsq
  | colon | bang | brGT | brLT | spread | comma | join
  | ident (name : List Char) (ty : FieldType)
  | num (value : List Char)
  | lit (value : List Char)
  | ref (collection : List Char) (clause : List Char)
deriving DecidableEq, Repr

/-- `TokenMap` of src/lexer/token.ts, as a lookup on the spelled-out
operator text. -/
def tokenMap (s : List Char) : Option FToken :=
  if s = str ("&&") then some FToken.land
  else if s = str ("||") then some FToken.lor
  else if s = str (":=") then some FToken.eq
  else if s = str (":>") then some FToken.gt
  else if s = str (":<") then some FToken.lt
  else if s = str (":<=") then some FToken.lte
  else if s = str (":>=") then some FToken.gte
  else if s = str (":!=") then some FToken.neq
  else if s = str (":!") then some FToken.bang
  else if s = str (":") then some FToken.colon
  else if s = str ("(") then some FToken.lparen
  else if s = str (")") then some FToken.rparen
  else if s = str (":[") then some FToken.lsq
  else if s = str ("<") then some FToken.brLT
  else if s = str (">") then some FToken.brGT
  else if s = str ("]") then some FToken.rsq
  else if s = str ("..") then some FToken.spread
  else if s = str (",") then some FToken.comma
  else if s = str ("$") then some FToken.join
  else none

/-- Find the first `(` of a reference head: in `$coll(rest`, split into
the collection name and the remainder after the `(`. -/
def splitAtParen : List Char → List Char → Option (List Char × List Char)
  | '(' :: rest, acc => some (acc, rest)
  | c :: rest, acc => splitAtParen rest (acc ++ [c])
  | [], _ => none

/-- The `$${Collection}(${Rest}` pattern of `ReadToken`: succeeds when the
input starts with `$` and a `(` occurs later. -/
def refSplit : List Char → Option (List Char × List Char)
  | '$' :: rest => splitAtParen rest []
  | _ => none

/-- `ReadNestedReferenceToken` of src/lexer/filter.ts: consume the join
clause while tracking parenthesis depth; the matching `)` at depth 0
closes the reference, and end of input closes it as well. -/
def readNestedRef : List Char → List Char → List Char → Nat → FToken × List Char
  | '(' :: rest, coll, clause, depth =>
    readNestedRef rest coll (clause ++ ['(']) (depth + 1)
  | ')' :: rest, coll, clause, 0 => (FToken.ref coll clause, rest)
  | ')' :: rest, coll, clause, depth + 1 =>
    readNestedRef rest coll (clause ++ [')']) depth
  | c :: rest, coll, clause, depth =>
    readNestedRef rest coll (clause ++ [c]) depth
  | [], coll, clause, _ => (FToken.ref coll clause, [])

/-- `ReadToken` of src/lexer/filter.ts: a reference `$coll(...)`, else the
longest 3-, 2-, or 1-character operator of `TokenMap` — the shorter
alternatives are attempted only when the input still has at least three
characters, exactly as in the nested conditional of the source. -/
def readToken (t : List Char) : Option (FToken × List Char) :=
  match refSplit t with
  | some (coll, rest) => some (readNestedRef rest coll [] 0)
  | none =>
    match t with
    | c1 :: c2 :: c3 :: rest =>
      match tokenMap [c1, c2, c3] with
      | some tok => some (tok, rest)
      | none =>
        match tokenMap [c1, c2] with
        | some tok => some (tok, c3 :: rest)
        | none =>
          match tokenMap [c1] with
          | some tok => some (tok, c2 :: c3 :: rest)
          | none => none
    | _ => none

/-- Split at the first backtick: `before` and `after` of the closing
backtick of an escaped literal. -/
def splitAtBacktick : List Char → List Char → Option (List Char × List Char)
  | '`' :: rest, acc => some (acc, rest)
  | c :: rest, acc => splitAtBacktick rest (acc ++ [c])
  | [], _ => none

/-- The backtick guard of the tokenizer
(`` T extends `\`${Content}\`${Tail}` ``): an input starting with a
backtick that is closed later yields the verbatim content and the tail. -/
def readEscapeToken : List Char → Option (List Char × List Char)
  | '`' :: rest => splitAtBacktick rest []
  | _ => none

/-- Result of the filter tokenizer: the token list, a lexical error
(`Unknown token: c`), or fuel exhaustion standing for the diverging
type-level recursion. -/
inductive TokRes where
  | ok (toks : List FToken)
  | err (msg : List Char)
  | diverge
deriving DecidableEq, Repr

/-- `Tokenizer` of src/lexer/filter.ts.  Branch order follows the source:
end of input, escaped literal, `ReadToken`, single-character `TokenMap`
symbol, whitespace, identifier/bare literal via `ReadString`,
numeric literal via `ReadNum`, otherwise `Unknown token`.  One unit of
fuel is spent per step; the `ReadNum` branch makes no progress on a
leading `.`, which exhausts any fuel — faithfully to the source, whose
type instantiation never terminates there. -/
def tokenizerF (schema : CollectionSchema) : Nat → List Char → List FToken → TokRes
  | 0, _, _ => TokRes.diverge
  | fuel + 1, t, acc =>
    match t with
    | [] => TokRes.ok acc
    | head :: tail =>
      match readEscapeToken (head :: tail) with
      | some (content, rest) =>
        tokenizerF schema fuel rest (acc ++ [FToken.lit content])
      | none =>
        match readToken (head :: tail) with
        | some (tok, rest) => tokenizerF schema fuel rest (acc ++ [tok])
        | none =>
          match tokenMap [head] with
          | some tok => tokenizerF schema fuel tail (acc ++ [tok])
          | none =>
            if head = ' ' then tokenizerF schema fuel tail acc
            else if isCharTok head then
              match readString (head :: tail) with
              | (s, rest) =>
                match fieldTypeOf schema s with
                | some ty => tokenizerF schema fuel rest (acc ++ [FToken.ident s ty])
                | none => tokenizerF schema fuel rest (acc ++ [FToken.lit s])
            else if isNumericValue head then
              match readNum (head :: tail) with
              | (n, rest) => tokenizerF schema fuel rest (acc ++ [FToken.num n])
            else TokRes.err (str ("Unknown token: ") ++ [head])

/-! ## Filter grammar validator (src/lexer/filter.ts) -/

/-- Result of a grammar validator: the source's `true`, an error-message
string, or the marker for a diverging type-level recursion. -/
inductive ValRes where
  | valid
  | invalid (msg : List Char)
  | diverge
deriving DecidableEq, Repr

/-- `TypeToOperatorMap` of src/lexer/filter.ts as a membership test: the
operators a field of the given type may be followed by.  Types absent
from the source map admit no operator. -/
def typeToOperatorSet (ty : FieldType) (t : FToken) : Bool :=
  match ty with
  | FieldType.string =>
    t = FToken.eq || t = FToken.colon || t = FToken.neq || t = FToken.lsq
  | FieldType.int32 | FieldType.int64 | FieldType.float =>
    t = FToken.lt || t = FToken.gt || t = FToken.eq || t = FToken.gte
      || t = FToken.lte || t = FToken.neq || t = FToken.lsq
  | FieldType.bool => t = FToken.eq || t = FToken.neq
  | FieldType.int32Arr | FieldType.int64Arr | FieldType.floatArr =>
    t = FToken.lt || t = FToken.gt || t = FToken.eq
  | FieldType.boolArr => t = FToken.eq
  | _ => false

/-- `GetTokenType` of src/lexer/filter.ts.  `:!=`, `:!` and `$` are not
keys of `OperatorMap`, so they fall through every branch of the source
conditional and print as `Unknown`. -/
def getTokenType (t : FToken) : List Char :=
  match t with
  | FToken.num _ => str ("num token")
  | FToken.lit _ => str ("literal token")
  | FToken.ident _ _ => str ("identifier")
  | FToken.lparen => str ("`(`")
  | FToken.rparen => str ("`)`")
  | FToken.land => str ("`&&`")
  | FToken.lor => str ("`||`")
  | FToken.comma => str ("`,`")
  | FToken.spread => str ("`..`")
  | FToken.rsq => str ("`]`")
  | FToken.brGT => str ("`>`")
  | FToken.brLT => str ("`<`")
  | FToken.ref _ _ => str ("join to another collection")
  | FToken.lt => str ("`:<`")
  | FToken.gt => str ("`:>`")
  | FToken.eq => str ("`:=`")
  | FToken.gte => str ("`:>=`")
  | FToken.lte => str ("`:<=`")
  | FToken.colon => str ("`:`")
  | FToken.lsq => str ("`:[`")
  | FToken.neq => str ("Unknown")
  | FToken.bang => str ("Unknown")
  | FToken.join => str ("Unknown")

/-- `GetTokenType<TNext[0]>` when the next-token list may be empty: the
source indexes past the end and every branch fails, yielding `Unknown`. -/
def getTokenTypeOpt (t : Option FToken) : List Char :=
  match t with
  | some tok => getTokenType tok
  | none => str ("Unknown")

/-- `IsValidValue` of src/lexer/filter.ts: what may follow a numeric or
literal token (`cur` is the numeric flag). -/
def isValidValue (isNum : Bool) (value : List Char) (next : List FToken) : ValRes :=
  match next with
  | t :: _ =>
    if t = FToken.rparen || t = FToken.land || t = FToken.lor || t = FToken.comma
        || (isNum && (t = FToken.spread || t = FToken.rsq))
        || (!isNum && t = FToken.rsq) then
      ValRes.valid
    else
      ValRes.invalid
        (str ("Invalid token sequence: ")
          ++ (if isNum then str ("Num Token `") else str ("Literal Token `"))
          ++ value ++ str ("` followed by ") ++ getTokenType t)
  | [] => ValRes.valid

/-- `ValidNextOperatorMap` of src/lexer/filter.ts as a membership test:
the token `t` lies in the operator set of the type that `fields`
declares for `name` (nothing is allowed for an undeclared name). -/
def allowedAfterIdent (fields : List CollectionField) (name : List Char)
    (t : FToken) : Bool :=
  match List.find? (fun f => f.name = name) fields with
  | some f => typeToOperatorSet f.type t
  | none => false

/-- `IsValidIdentifier` of src/lexer/filter.ts: the successor of an
identifier must lie in `ValidNextTokenMap<Fields>[name]`, i.e. in the
operator set of the type that `Fields` declares for `name`. -/
def isValidIdentifier (name : List Char) (fields : List CollectionField)
    (next : List FToken) : ValRes :=
  let ok : Bool :=
    match next with
    | t :: _ => allowedAfterIdent fields name t
    | [] => false
  if ok then ValRes.valid
  else
    ValRes.invalid
      (str ("Invalid token sequence: identifier with name `") ++ name
        ++ str ("` followed by ") ++ getTokenTypeOpt next.head?)

/-- The keys of `OperatorMap` in src/lexer/filter.ts.  Note that the map
declares a key `"!="` while the scanner's not-equal token is `":!="`, so
`FToken.neq` is *not* a key; neither are `:!` and `$`. -/
def isOperatorMapKey (t : FToken) : Bool :=
  match t with
  | FToken.lparen | FToken.rparen | FToken.lt | FToken.gt | FToken.eq
  | FToken.gte | FToken.lte | FToken.colon | FToken.land | FToken.lor
  | FToken.lsq | FToken.rsq | FToken.brGT | FToken.brLT | FToken.spread
  | FToken.comma => true
  | _ => false

/-- The `valid` successor set of an `OperatorMap` entry. -/
def operatorMapValid (cur t : FToken) : Bool :=
  match cur with
  | FToken.lparen =>
    (match t with | FToken.ident _ _ => true | FToken.lparen => true | _ => false)
  | FToken.rparen => t = FToken.rparen || t = FToken.land || t = FToken.lor
  | FToken.lt | FToken.gt | FToken.eq | FToken.gte | FToken.lte | FToken.colon =>
    (match t with | FToken.lit _ => true | FToken.num _ => true | _ => false)
  | FToken.land =>
    (match t with
     | FToken.lparen => true | FToken.ident _ _ => true | FToken.ref _ _ => true
     | _ => false)
  | FToken.lor =>
    (match t with | FToken.lparen => true | FToken.ident _ _ => true | _ => false)
  | FToken.lsq =>
    (match t with
     | FToken.num _ => true | FToken.brGT => true | FToken.brLT => true
     | FToken.lit _ => true | _ => false)
  | FToken.rsq => t = FToken.land || t = FToken.lor || t = FToken.rparen
  | FToken.brGT => (match t with | FToken.num _ => true | _ => false)
  | FToken.brLT => (match t with | FToken.num _ => true | _ => false)
  | FToken.spread => (match t with | FToken.num _ => true | _ => false)
  | FToken.comma =>
    (match t with
     | FToken.num _ => true | FToken.brGT => true | FToken.brLT => true
     | FToken.lit _ => true | _ => false)
  | _ => false

/-- The `empty` flag of an `OperatorMap` entry: only `)` and `]` may end
the expression. -/
def operatorMapEmpty (cur : FToken) : Bool :=
  cur = FToken.rparen || cur = FToken.rsq

/-- The operator text used in `IsValidToken` error messages (the
`OperatorMap` key itself). -/
def operatorText (cur : FToken) : List Char :=
  match cur with
  | FToken.lparen => str ("(")
  | FToken.rparen => str (")")
  | FToken.lt => str (":<")
  | FToken.gt => str (":>")
  | FToken.eq => str (":=")
  | FToken.gte => str (":>=")
  | FToken.lte => str (":<=")
  | FToken.colon => str (":")
  | FToken.land => str ("&&")
  | FToken.lor => str ("||")
  | FToken.lsq => str (":[")
  | FToken.rsq => str ("]")
  | FToken.brGT => str (">")
  | FToken.brLT => str ("<")
  | FToken.spread => str ("..")
  | FToken.comma => str (",")
  | _ => []

/-- `IsValidToken` of src/lexer/filter.ts: look the current operator up in
`OperatorMap` and test its successor, allowing end of input only when
the entry's `empty` flag is set. -/
def isValidToken (cur : FToken) (next : List FToken) : ValRes :=
  match next with
  | t :: _ =>
    if operatorMapValid cur t then ValRes.valid
    else
      ValRes.invalid
        (str ("Invalid token sequence: `") ++ operatorText cur
          ++ str ("` followed by ") ++ getTokenType t)
  | [] =>
    if operatorMapEmpty cur then ValRes.valid
    else
      ValRes.invalid
        (str ("Invalid token sequence: `") ++ operatorText cur
          ++ str ("` followed by ") ++ str ("Unknown"))

/-- `IsValidJoin` of src/lexer/filter.ts.  `recurse` is the recursive
filter parse against the joined collection's registered schema. -/
def isValidJoin (recurse : List Char → CollectionSchema → ValRes)
    (reg : Registry) (schema : CollectionSchema)
    (coll clause : List Char) (next : List FToken) : ValRes :=
  match lookupCollection reg schema.name with
  | none =>
    ValRes.invalid (str ("Collection `") ++ schema.name ++ str ("` not registered"))
  | some _ =>
    match lookupCollection reg coll with
    | none =>
      ValRes.invalid (str ("Collection `") ++ coll ++ str ("` not registered"))
    | some joined =>
      if isReferencedIn reg schema.name coll then
        match recurse clause joined with
        | ValRes.invalid e =>
          ValRes.invalid
            (str ("[Error on filter for joined collection `") ++ coll
              ++ str ("`]: ") ++ e)
        | ValRes.diverge => ValRes.diverge
        | ValRes.valid =>
          match next with
          | t :: _ =>
            if t = FToken.lor || t = FToken.land then ValRes.valid
            else
              ValRes.invalid
                (str ("Invalid token sequence: ") ++ getTokenType t
                  ++ str (" cannot be the next token after a join"))
          | [] => ValRes.valid
      else
        ValRes.invalid
          (str ("Collection `") ++ coll ++ str ("` not referenced in `")
            ++ schema.name ++ str ("`"))

/-- `IsNextTokenValid` of src/lexer/filter.ts, dispatching in source
order: values, identifiers, `OperatorMap` keys, references; `:!=`, `:!`
and `$` fall through to the `Unknown token` error. -/
def isNextTokenValid (recurse : List Char → CollectionSchema → ValRes)
    (reg : Registry) (schema : CollectionSchema)
    (cur : FToken) (next : List FToken) : ValRes :=
  match cur with
  | FToken.num v => isValidValue true v next
  | FToken.lit v => isValidValue false v next
  | FToken.ident n _ => isValidIdentifier n schema.fields next
  | FToken.ref coll clause => isValidJoin recurse reg schema coll clause next
  | _ =>
    if isOperatorMapKey cur then isValidToken cur next
    else
      ValRes.invalid
        (str ("Invalid token sequence: Unknown token followed by `")
          ++ getTokenTypeOpt next.head? ++ str ("`"))

/-- `ValidStarts` of src/lexer/filter.ts. -/
def validStart (t : FToken) : Bool :=
  match t with
  | FToken.lparen | FToken.ident _ _ | FToken.num _ | FToken.lit _
  | FToken.ref _ _ => true
  | _ => false

/-- `IsValidArray` of src/lexer/filter.ts: the first token must be a valid
start (a lone token is rejected unless it is a reference, which is then
join-validated); every later token is checked against its successors,
and once the list is exhausted the first accumulated token is checked
against the rest of the accumulator. -/
def isValidArray (recurse : List Char → CollectionSchema → ValRes)
    (reg : Registry) (schema : CollectionSchema) :
    List FToken → List FToken → Bool → ValRes
  | head :: tail, acc, false =>
    if validStart head then
      match tail with
      | [] =>
        match head with
        | FToken.ref coll clause => isValidJoin recurse reg schema coll clause []
        | _ =>
          ValRes.invalid
            (str ("Invalid token sequence: ") ++ getTokenType head
              ++ str (" cannot be the only token"))
      | _ :: _ => isValidArray recurse reg schema tail (acc ++ [head]) true
    else ValRes.invalid (str ("Invalid start token: ") ++ getTokenType head)
  | head :: tail, acc, true =>
    match isNextTokenValid recurse reg schema head tail with
    | ValRes.valid => isValidArray recurse reg schema tail (acc ++ [head]) true
    | r => r
  | [], acc, _ =>
    match acc with
    | [] => ValRes.valid
    | a :: rest => isNextTokenValid recurse reg schema a rest

/-- `CheckBalancedTokens` of src/lexer/types.ts, specialised to a pair of
open/close tokens with the stack abstracted to its size. -/
def checkBalanced (openT closeT : FToken) : List FToken → Nat → Bool
  | t :: rest, d =>
    if t = openT then checkBalanced openT closeT rest (d + 1)
    else if t = closeT then
      match d with
      | d' + 1 => checkBalanced openT closeT rest d'
      | 0 => false
    else checkBalanced openT closeT rest d
  | [], d => d = 0

/-- `CheckParentheses` of src/lexer/filter.ts. -/
def checkParentheses (toks : List FToken) : Bool :=
  checkBalanced FToken.lparen FToken.rparen toks 0

/-- `CheckSquareBrackets` of src/lexer/filter.ts. -/
def checkSquareBrackets (toks : List FToken) : Bool :=
  checkBalanced FToken.lsq FToken.rsq toks 0

/-- `Parse` of src/lexer/filter.ts (`ParseFilter`): tokenize, walk the
token array, then check both bracket balances.  The fuel bounds the
recursion through join clauses; the tokenizer gets `length + 1` fuel,
enough for every terminating source run. -/
def parseFilterF (reg : Registry) : Nat → List Char → CollectionSchema → ValRes
  | 0, _, _ => ValRes.diverge
  | fuel + 1, s, schema =>
    match tokenizerF schema (s.length + 1) s [] with
    | TokRes.err msg => ValRes.invalid msg
    | TokRes.diverge => ValRes.diverge
    | TokRes.ok toks =>
      match isValidArray (fun c sch => parseFilterF reg fuel c sch) reg schema
          toks [] false with
      | ValRes.valid =>
        if checkParentheses toks then
          if checkSquareBrackets toks then ValRes.valid
          else ValRes.invalid (str ("Square brackets are not balanced"))
        else ValRes.invalid (str ("Parentheses are not balanced"))
      | r => r

/-- Public entry point `validateFilter`: parse the raw expression against
the schema with the canonical fuel. -/
def validateFilter (reg : Registry) (s : String) (schema : CollectionSchema) : ValRes :=
  parseFilterF reg (s.data.length + 1) (str s) schema

/-! ## Concrete schemas (the registry of the source's filter tests) -/

/-- The `users` schema of the source tests. -/
def users : CollectionSchema :=
  { name := str ("users")
    fields :=
      [ { name := str ("id"), type := FieldType.string, optional := some false }
      , { name := str ("name"), type := FieldType.string, optional := some false }
      , { name := str ("age"), type := FieldType.int32, optional := some false,
          sort := some true }
      , { name := str ("email"), type := FieldType.string, optional := some true } ] }

/-- The `posts` schema of the source tests; `author` references `users.id`. -/
def posts : CollectionSchema :=
  { name := str ("posts")
    fields :=
      [ { name := str ("id"), type := FieldType.string, optional := some false }
      , { name := str ("title"), type := FieldType.string, optional := some false }
      , { name := str ("content"), type := FieldType.string, optional := some false }
      , { name := str ("author"), type := FieldType.string, optional := some false,
          reference := some (str ("users.id")) } ] }

/-- The `comments` schema of the source tests; `post` references `posts.id`. -/
def comments : CollectionSchema :=
  { name := str ("comments")
    fields :=
      [ { name := str ("id"), type := FieldType.string, optional := some false }
      , { name := str ("content"), type := FieldType.string, optional := some false }
      , { name := str ("post"), type := FieldType.string, optional := some false,
          reference := some (str ("posts.id")) } ] }

/-- The registry holding `users`, `posts` and `comments`. -/
def testRegistry : Registry := [users, posts, comments]

example : validateFilter testRegistry "(age := 20) && name:[`John`, `Doe`]" users
    = ValRes.valid := by decide

example : validateFilter testRegistry "age != 20" users
    = ValRes.invalid (str ("Unknown token: !")) := by decide

example : validateFilter testRegistry "(age := 30 && name:[`Alice`, `Bob`]" users
    = ValRes.invalid (str ("Parentheses are not balanced")) := by decide

example : validateFilter testRegistry "$posts(author:=*)" users = ValRes.valid := by
  decide

example : validateFilter testRegistry "$posts($users(name:=John))" users
    = ValRes.invalid
        (str ("[Error on filter for joined collection `posts`]: Collection `users` not referenced in `posts`")) := by
  decide

/-! ## Eval grammar validator (src/lexer/eval.ts) -/

/-- The eval-grammar `Token` union: a filter clause with its `in_range`
flag, a number, `:`, `,`, `[`, `]`. -/
inductive EToken where
  | fc (clause : List Char) (inRange : Bool)
  | num (value : List Char)
  | colon | comma | lsq | rsq
deriving DecidableEq, Repr

/-- The `)␣:` collapse of `TrimLeft`: replace the first occurrence of a
`)` followed by one space and a `:` with `):`. -/
def collapseParenColon : List Char → List Char
  | ')' :: ' ' :: ':' :: rest => ')' :: ':' :: rest
  | c :: rest => c :: collapseParenColon rest
  | [] => []

/-- `TrimLeft` of src/lexer/eval.ts: strip leading spaces, then collapse
the first `)␣:` into `):` (once). -/
def trimLeft : List Char → List Char
  | ' ' :: rest => trimLeft rest
  | t => collapseParenColon t

/-- Scan for the first `):` of an in-range filter clause, returning the
clause before it and the remainder after the `:`. -/
def splitFCAux : List Char → List Char → Option (List Char × List Char)
  | ')' :: ':' :: rest, acc => some (acc, rest)
  | c :: rest, acc => splitFCAux rest (acc ++ [c])
  | [], _ => none

/-- The `` `(${Clause}):${Rest}` `` pattern of the eval `ReadToken`. -/
def splitFC : List Char → Option (List Char × List Char)
  | '(' :: rest => splitFCAux rest []
  | _ => none

/-- `ReadToken` of src/lexer/eval.ts, in source order: the four
punctuation tokens, an in-range filter clause `(<filter>):`, a number
(digit-leading), whitespace skipping, and otherwise the whole remaining
text as a bare (`in_range = false`) filter clause. -/
def evalReadToken : List Char → Option (EToken × List Char)
  | [] => none
  | '[' :: rest => some (EToken.lsq, rest)
  | ']' :: rest => some (EToken.rsq, rest)
  | ':' :: rest => some (EToken.colon, rest)
  | ',' :: rest => some (EToken.comma, rest)
  | c :: rest =>
    match splitFC (c :: rest) with
    | some (clause, after) => some (EToken.fc clause true, after)
    | none =>
      if isDigitTok c then
        match readNum (c :: rest) with
        | (n, after) => some (EToken.num n, after)
      else if c = ' ' then evalReadToken rest
      else some (EToken.fc (c :: rest) false, [])

/-- `Tokenizer` of src/lexer/eval.ts: skip leading whitespace, read a
token from the trimmed input, and loop until the input is exhausted.
Fuel stands in for the type-level recursion depth; `none` is
exhaustion. -/
def evalTokenizerF : Nat → List Char → List EToken → Option (List EToken)
  | 0, _, _ => none
  | fuel + 1, t, acc =>
    match t with
    | [] => some acc
    | ' ' :: rest => evalTokenizerF fuel rest acc
    | _ =>
      match evalReadToken (trimLeft t) with
      | some (tok, rest) => evalTokenizerF fuel rest (acc ++ [tok])
      | none => some acc

/-- `GetTokenType` of src/lexer/eval.ts. -/
def evalGetTokenType (t : EToken) : List Char :=
  match t with
  | EToken.fc _ _ => str ("filter clause")
  | EToken.num _ => str ("number")
  | EToken.lsq => str ("`[`")
  | EToken.rsq => str ("`]`")
  | EToken.colon => str ("`:`")
  | EToken.comma => str ("`,`")

/-- Wrap a failed embedded filter parse as the eval validator does. -/
def wrapFilterError (r : ValRes) : ValRes :=
  match r with
  | ValRes.valid => ValRes.valid
  | ValRes.invalid e => ValRes.invalid (str ("[Error on filter]: ") ++ e)
  | ValRes.diverge => ValRes.diverge

/-- `IsValidFilterClause` of src/lexer/eval.ts: an in-range clause must be
followed by a number and its filter text must parse; a bare clause must
be the last token and its filter text must parse. -/
def evalIsValidFilterClause (pf : List Char → ValRes) (clause : List Char)
    (next : List EToken) (inRange : Bool) : ValRes :=
  if inRange then
    match next with
    | EToken.num _ :: _ => wrapFilterError (pf clause)
    | _ => ValRes.invalid (str ("Invalid token after filter, expected a number"))
  else
    match next with
    | [] => wrapFilterError (pf clause)
    | _ :: _ =>
      ValRes.invalid (str ("Invalid token: a filter must be the only token in _eval"))

/-- `IsValidNumber` of src/lexer/eval.ts: a number must be followed by `,`
or `]`. -/
def evalIsValidNumber (next : List EToken) : ValRes :=
  match next with
  | EToken.comma :: _ => ValRes.valid
  | EToken.rsq :: _ => ValRes.valid
  | _ =>
    ValRes.invalid (str ("Invalid token after number, expected `,` or `]`"))

/-- `IsValidBracket` of src/lexer/eval.ts. -/
def evalIsValidBracket (isOpen : Bool) (next : List EToken) : ValRes :=
  if isOpen then
    match next with
    | EToken.fc _ true :: _ => ValRes.valid
    | _ => ValRes.invalid (str ("Invalid token after `[`, expected filter"))
  else
    match next with
    | [] => ValRes.valid
    | _ :: _ => ValRes.invalid (str ("Invalid token after `]`, expected EOF"))

/-- `IsValidOperator` of src/lexer/eval.ts. -/
def evalIsValidOperator (isColon : Bool) (next : List EToken) : ValRes :=
  if isColon then
    match next with
    | EToken.num _ :: _ => ValRes.valid
    | _ => ValRes.invalid (str ("Invalid token after `:`, expected number"))
  else
    match next with
    | EToken.fc _ true :: _ => ValRes.valid
    | _ => ValRes.invalid (str ("Invalid token after `,`, expected filter"))

/-- `IsNextTokenValid` of src/lexer/eval.ts. -/
def evalIsNextTokenValid (pf : List Char → ValRes) (cur : EToken)
    (next : List EToken) : ValRes :=
  match cur with
  | EToken.fc clause inRange => evalIsValidFilterClause pf clause next inRange
  | EToken.num _ => evalIsValidNumber next
  | EToken.lsq => evalIsValidBracket true next
  | EToken.rsq => evalIsValidBracket false next
  | EToken.colon => evalIsValidOperator true next
  | EToken.comma => evalIsValidOperator false next

/-- The valid start tokens of the eval grammar: a bare filter clause or
`[`. -/
def evalValidStart (t : EToken) : Bool :=
  match t with
  | EToken.fc _ false => true
  | EToken.lsq => true
  | _ => false

/-- `IsValidArray` of src/lexer/eval.ts, with the same walk shape as the
filter validator: start-token check, successor checks, and the final
check of the first accumulated token. -/
def evalIsValidArray (pf : List Char → ValRes) :
    List EToken → List EToken → Bool → ValRes
  | head :: tail, acc, false =>
    if evalValidStart head then
      match tail with
      | [] =>
        match head with
        | EToken.fc clause false => wrapFilterError (pf clause)
        | _ =>
          ValRes.invalid
            (str ("Invalid token sequence: ") ++ evalGetTokenType head
              ++ str (" cannot be the only token"))
      | _ :: _ => evalIsValidArray pf tail (acc ++ [head]) true
    else ValRes.invalid (str ("Invalid start token: ") ++ evalGetTokenType head)
  | head :: tail, acc, true =>
    match evalIsNextTokenValid pf head tail with
    | ValRes.valid => evalIsValidArray pf tail (acc ++ [head]) true
    | r => r
  | [], acc, _ =>
    match acc with
    | [] => ValRes.valid
    | a :: rest => evalIsNextTokenValid pf a rest

/-- `CheckSquareBrackets` of src/lexer/eval.ts on eval tokens. -/
def evalCheckSquareBrackets (toks : List EToken) : Bool :=
  let rec go : List EToken → Nat → Bool
    | t :: rest, d =>
      if t = EToken.lsq then go rest (d + 1)
      else if t = EToken.rsq then
        match d with
        | d' + 1 => go rest d'
        | 0 => false
      else go rest d
    | [], d => d = 0
  go toks 0

/-- `Parse` of src/lexer/eval.ts (`ParseEval`): tokenize, walk, then check
the square-bracket balance.  Embedded filter clauses are parsed with
one unit of fuel less. -/
def parseEvalF (reg : Registry) : Nat → List Char → CollectionSchema → ValRes
  | 0, _, _ => ValRes.diverge
  | fuel + 1, s, schema =>
    match evalTokenizerF (s.length + 1) s [] with
    | none => ValRes.diverge
    | some toks =>
      match evalIsValidArray (fun c => parseFilterF reg fuel c schema)
          toks [] false with
      | ValRes.valid =>
        if evalCheckSquareBrackets toks then ValRes.valid
        else ValRes.invalid (str ("Square brackets are not balanced"))
      | r => r

/-- Public entry point `validateEval`. -/
def validateEval (reg : Registry) (s : String) (schema : CollectionSchema) : ValRes :=
  parseEvalF reg (s.data.length + 1) (str s) schema

example : validateEval testRegistry "[(age:>=20):30, (age:<=40):20]" users
    = ValRes.valid := by decide

example : validateEval testRegistry "age:=20" users = ValRes.valid := by decide

example : validateEval testRegistry "[(age:>=20):30" users
    = ValRes.invalid (str ("Invalid token after number, expected `,` or `]`")) := by
  decide

example : validateEval testRegistry "[(invalid:=20):30]" users
    = ValRes.invalid
        (str ("[Error on filter]: Invalid token sequence: Literal Token `invalid` followed by `:=`")) := by
  decide

example : validateEval testRegistry "[ (age:=20) : 30 ]" users = ValRes.valid := by
  decide

/-! ## Sort grammar validator (src/lexer/sort.ts) -/

/-- The sort-grammar `Token` union.  The scanner tags every identifier
with the full `FieldType` union, so only the name is carried here. -/
inductive SToken where
  | ident (name : List Char)
  | colon
  | asc | desc
  | comma
  | evalTok (clause : List Char)
  | config (key value : List Char)
deriving DecidableEq, Repr

/-- Worker of `ExtractBalancedParenthesesAndTrim` after the opening `(`:
`d` is the number of additional open parentheses beyond the first. -/
def ebptAux : List Char → List Char → Nat → List Char × List Char
  | '(' :: rest, acc, d => ebptAux rest (acc ++ ['(']) (d + 1)
  | ')' :: rest, acc, 0 => (acc, rest)
  | ')' :: rest, acc, d + 1 => ebptAux rest (acc ++ [')']) d
  | c :: rest, acc, d => ebptAux rest (acc ++ [c]) d
  | [], _, _ => ([], [])

/-- `ExtractBalancedParenthesesAndTrim` of src/lexer/sort.ts: when the
input starts with `(`, the balanced content and the remainder after the
matching `)`; otherwise the whole input with an empty remainder. -/
def ebpt : List Char → List Char × List Char
  | '(' :: rest => ebptAux rest [] 0
  | t => (t, [])

/-- Split at the first occurrence of a character, returning the parts
before and after it. -/
def splitOnChar (target : Char) : List Char → List Char → Option (List Char × List Char)
  | c :: rest, acc =>
    if c = target then some (acc, rest) else splitOnChar target rest (acc ++ [c])
  | [], _ => none

/-- The `` `${Field}(${Key}:${Value})${Rest}` `` config pattern of the
sort `ReadToken`, resolved lazily left to right: the field name before
the first `(`, the key before the first `:` after it, the value before
the first `)` after that. -/
def configSplit (t : List Char) : Option (List Char × List Char × List Char × List Char) :=
  match splitOnChar '(' t [] with
  | none => none
  | some (field, r1) =>
    match splitOnChar ':' r1 [] with
    | none => none
    | some (key, r2) =>
      match splitOnChar ')' r2 [] with
      | none => none
      | some (value, r3) => some (field, key, value, r3)

/-- `ReadToken` of src/lexer/sort.ts, in source order: `:` and `,`, the
`_eval(...)` clause (with a fused `:desc` fast path), the per-field
config pattern, the `asc`/`desc` prefixes, and finally `ReadString` —
which always produces an identifier token, possibly with an empty name
and no progress when the first character is not a `Char`. -/
def sortReadToken (t : List Char) : Option (List SToken × List Char) :=
  match t with
  | [] => none
  | ':' :: rest => some ([SToken.colon], rest)
  | ',' :: rest => some ([SToken.comma], rest)
  | _ =>
    if List.isPrefixOf (str ("_eval")) t then
      match ebpt (t.drop 5) with
      | (clause, remaining) =>
        if List.isPrefixOf (str (":desc")) remaining then
          some ([SToken.evalTok clause, SToken.colon, SToken.desc], remaining.drop 5)
        else some ([SToken.evalTok clause], remaining)
    else
      match configSplit t with
      | some (field, key, value, rest) =>
        some ([SToken.ident field, SToken.config key value], rest)
      | none =>
        if List.isPrefixOf (str ("asc")) t then some ([SToken.asc], t.drop 3)
        else if List.isPrefixOf (str ("desc")) t then some ([SToken.desc], t.drop 4)
        else
          match readString t with
          | (s, rest) => some ([SToken.ident s], rest)

/-- `Tokenizer` of src/lexer/sort.ts, with fuel for the type-level
recursion (`none` is exhaustion, reachable because `ReadToken` makes no
progress on an identifier position that `ReadString` rejects). -/
def sortTokenizerF : Nat → List Char → List SToken → Option (List SToken)
  | 0, _, _ => none
  | fuel + 1, t, acc =>
    match t with
    | [] => some acc
    | ' ' :: rest => sortTokenizerF fuel rest acc
    | _ =>
      match sortReadToken t with
      | some (toks, rest) => sortTokenizerF fuel rest (acc ++ toks)
      | none => some acc

/-- `IsValidIdentifier` of src/lexer/sort.ts: the identifier must name a
sortable field or `_text_match_score`, and must be followed by `:` or a
valid `missing_values` config. -/
def sortIsValidIdentifier (schema : CollectionSchema) (name : List Char)
    (next : List SToken) : ValRes :=
  if sortableName schema name || name = str ("_text_match_score") then
    match next with
    | SToken.colon :: _ => ValRes.valid
    | SToken.config key value :: _ =>
      if key = str ("missing_values") && (value = str ("first") || value = str ("last"))
      then ValRes.valid
      else
        ValRes.invalid
          (str ("Invalid token sequence: configuration (`") ++ key ++ str (": ")
            ++ value ++ str ("`) isn't valid."))
    | _ =>
      ValRes.invalid
        (str ("Invalid token sequence: identifier `") ++ name
          ++ str ("` must be followed by `:` or a valid `missing_values` config."))
  else if isFieldName schema name then
    ValRes.invalid
      (str ("Invalid identifier: ") ++ name ++ str (" is not a sortable field."))
  else
    ValRes.invalid
      (str ("Invalid identifier: ") ++ name ++ str (" is not a field of collection ")
        ++ schema.name ++ str ("."))

/-- `IsEvalValid` of src/lexer/sort.ts: `_eval` must be followed by `:`,
and its clause is validated by the eval validator, failures wrapped as
`[Error in _eval clause]: ... .`. -/
def sortIsEvalValid (pe : List Char → ValRes) (clause : List Char)
    (next : List SToken) : ValRes :=
  match next with
  | SToken.colon :: _ =>
    match pe clause with
    | ValRes.valid => ValRes.valid
    | ValRes.invalid e =>
      ValRes.invalid (str ("[Error in _eval clause]: ") ++ e ++ str ("."))
    | ValRes.diverge => ValRes.diverge
  | _ =>
    ValRes.invalid
      (str ("Invalid token sequence: '_eval' must be followed by `:`."))

/-- `IsValid` of src/lexer/sort.ts: the per-token successor rules of the
sort grammar. -/
def sortIsValid (pe : List Char → ValRes) (schema : CollectionSchema)
    (cur : SToken) (next : List SToken) : ValRes :=
  match cur with
  | SToken.ident name => sortIsValidIdentifier schema name next
  | SToken.colon =>
    match next with
    | SToken.asc :: _ => ValRes.valid
    | SToken.desc :: _ => ValRes.valid
    | _ =>
      ValRes.invalid
        (str ("Invalid token sequence: `:` must be followed by 'asc' or 'desc'."))
  | SToken.asc | SToken.desc =>
    match next with
    | [] => ValRes.valid
    | SToken.comma :: _ => ValRes.valid
    | _ =>
      ValRes.invalid
        (str ("Invalid token sequence: sort direction must be followed by `,` or end of input."))
  | SToken.comma =>
    match next with
    | SToken.ident _ :: _ => ValRes.valid
    | SToken.evalTok _ :: _ => ValRes.valid
    | _ =>
      ValRes.invalid
        (str ("Invalid token sequence: `,` must be followed by an identifier."))
  | SToken.evalTok clause => sortIsEvalValid pe clause next
  | SToken.config _ _ =>
    match next with
    | SToken.colon :: _ => ValRes.valid
    | _ =>
      ValRes.invalid
        (str ("Invalid token sequence: config token must be followed by `:`."))

/-- `IsValidArray` of src/lexer/sort.ts: every token is checked against
its successors, and the first token is checked last, against the rest
of the accumulator. -/
def sortIsValidArray (pe : List Char → ValRes) (schema : CollectionSchema) :
    List SToken → List SToken → ValRes
  | head :: tail, acc =>
    match sortIsValid pe schema head tail with
    | ValRes.valid => sortIsValidArray pe schema tail (acc ++ [head])
    | r => r
  | [], acc =>
    match acc with
    | [] => ValRes.valid
    | a :: rest => sortIsValid pe schema a rest

/-- `Parse` of src/lexer/sort.ts (`SortParse`): tokenize, walk, and prefix
failures with `Invalid token sequence: `. -/
def sortParseF (reg : Registry) : Nat → List Char → CollectionSchema → ValRes
  | 0, _, _ => ValRes.diverge
  | fuel + 1, s, schema =>
    match sortTokenizerF (s.length + 1) s [] with
    | none => ValRes.diverge
    | some toks =>
      match sortIsValidArray (fun c => parseEvalF reg fuel c schema) schema
          toks [] with
      | ValRes.valid => ValRes.valid
      | ValRes.invalid e =>
        ValRes.invalid (str ("Invalid token sequence: ") ++ e)
      | ValRes.diverge => ValRes.diverge

/-- Public entry point `validateSort`. -/
def validateSort (reg : Registry) (s : String) (schema : CollectionSchema) : ValRes :=
  sortParseF reg (s.data.length + 1) (str s) schema

example : validateSort testRegistry "age:desc" users = ValRes.valid := by decide

example : validateSort testRegistry "age:desc,score:asc" users
    = ValRes.invalid
        (str ("Invalid token sequence: Invalid identifier: score is not a field of collection users.")) := by
  decide

example : validateSort testRegistry "email:desc" users
    = ValRes.invalid
        (str ("Invalid token sequence: Invalid identifier: email is not a sortable field.")) := by
  decide

example : validateSort testRegistry "age(missing_values:first):desc " users
    = ValRes.valid := by decide

example : validateSort testRegistry "_text_match_score:asc, age:asc" users
    = ValRes.valid := by decide

example :
    validateSort testRegistry "_eval([(age:>=20):20, (name: `John`):5]):desc, age(missing_values:last):desc" users
    = ValRes.valid := by decide

example : validateSort testRegistry "age:invalid" users
    = ValRes.invalid
        (str ("Invalid token sequence: Invalid token sequence: `:` must be followed by 'asc' or 'desc'.")) := by
  decide

/-! ## Walk lemmas

A successful `IsValidArray` run validates, in order, the successor set
of every token after the first, and finally the successor set of the
first token (kept at the head of the accumulator).  The lemmas below
recover the per-token facts from a `valid` run. -/

theorem filter_walk_suffix (recurse : List Char → CollectionSchema → ValRes)
    (reg : Registry) (schema : CollectionSchema) :
    ∀ (l : List FToken) (cur : FToken) (ts acc : List FToken),
      isValidArray recurse reg schema (l ++ cur :: ts) acc true = ValRes.valid →
      isNextTokenValid recurse reg schema cur ts = ValRes.valid := by
  intro l
  induction l with
  | nil =>
    intro cur ts acc h
    rw [List.nil_append] at h
    rw [isValidArray] at h
    cases hx : isNextTokenValid recurse reg schema cur ts with
    | valid => rfl
    | invalid m => rw [hx] at h; simp at h
    | diverge => rw [hx] at h; simp at h
  | cons x l ih =>
    intro cur ts acc h
    rw [List.cons_append] at h
    rw [isValidArray] at h
    cases hx : isNextTokenValid recurse reg schema x (l ++ cur :: ts) with
    | valid => rw [hx] at h; exact ih cur ts (acc ++ [x]) h
    | invalid m => rw [hx] at h; simp at h
    | diverge => rw [hx] at h; simp at h

theorem filter_walk_first (recurse : List Char → CollectionSchema → ValRes)
    (reg : Registry) (schema : CollectionSchema) :
    ∀ (rest acc : List FToken),
      isValidArray recurse reg schema rest acc true = ValRes.valid →
      ∀ (a : FToken) (as' : List FToken), acc ++ rest = a :: as' →
        isNextTokenValid recurse reg schema a as' = ValRes.valid := by
  intro rest
  induction rest with
  | nil =>
    intro acc h a as' hsplit
    rw [List.append_nil] at hsplit
    subst hsplit
    rw [isValidArray] at h
    exact h
  | cons x t ih =>
    intro acc h a as' hsplit
    rw [isValidArray] at h
    cases hx : isNextTokenValid recurse reg schema x t with
    | valid =>
      rw [hx] at h
      exact ih (acc ++ [x]) h a as' (by simpa using hsplit)
    | invalid m => rw [hx] at h; simp at h
    | diverge => rw [hx] at h; simp at h

theorem filter_start_inv (recurse : List Char → CollectionSchema → ValRes)
    (reg : Registry) (schema : CollectionSchema)
    (t1 t2 : FToken) (ts : List FToken)
    (h : isValidArray recurse reg schema (t1 :: t2 :: ts) [] false = ValRes.valid) :
    validStart t1 = true ∧
      isValidArray recurse reg schema (t2 :: ts) [t1] true = ValRes.valid := by
  rw [isValidArray] at h
  by_cases hs : validStart t1 = true
  · rw [hs] at h
    simp only [if_true] at h
    exact ⟨hs, h⟩
  · rw [Bool.not_eq_true] at hs
    rw [hs] at h
    simp at h

/-- Every adjacent pair of a token stream accepted by the filter walk
passes the successor check of the earlier token of the pair. -/
theorem filter_adjacent (recurse : List Char → CollectionSchema → ValRes)
    (reg : Registry) (schema : CollectionSchema)
    (toks : List FToken)
    (h : isValidArray recurse reg schema toks [] false = ValRes.valid)
    (l : List FToken) (cur nxt : FToken) (r : List FToken)
    (hsplit : toks = l ++ cur :: nxt :: r) :
    isNextTokenValid recurse reg schema cur (nxt :: r) = ValRes.valid := by
  subst hsplit
  cases l with
  | nil =>
    have h2 := (filter_start_inv recurse reg schema cur nxt r (by simpa using h)).2
    exact filter_walk_first recurse reg schema (nxt :: r) [cur] h2 cur (nxt :: r) rfl
  | cons x l' =>
    obtain ⟨y, ys, hy⟩ : ∃ y ys, l' ++ cur :: nxt :: r = y :: ys := by
      cases hl : l' ++ cur :: nxt :: r with
      | nil => simp at hl
      | cons y ys => exact ⟨y, ys, rfl⟩
    rw [List.cons_append, hy] at h
    have h2 := (filter_start_inv recurse reg schema x y ys h).2
    rw [← hy] at h2
    exact filter_walk_suffix recurse reg schema l' cur (nxt :: r) [x] h2

/-- Inversion of a successful filter parse: the tokenizer succeeded, the
walk succeeded, and both bracket balances hold. -/
theorem parseFilterF_valid_inv (reg : Registry) (fuel : Nat) (s : List Char)
    (schema : CollectionSchema)
    (h : parseFilterF reg (fuel + 1) s schema = ValRes.valid) :
    ∃ toks, tokenizerF schema (s.length + 1) s [] = TokRes.ok toks ∧
      isValidArray (fun c sch => parseFilterF reg fuel c sch) reg schema
        toks [] false = ValRes.valid ∧
      checkParentheses toks = true ∧ checkSquareBrackets toks = true := by
  rw [parseFilterF] at h
  split at h
  next msg heq => simp at h
  next heq => simp at h
  next toks heq =>
    refine ⟨toks, heq, ?_⟩
    split at h
    next hv =>
      refine ⟨hv, ?_⟩
      by_cases hp : checkParentheses toks = true
      · rw [hp] at h
        simp only [if_true] at h
        by_cases hq : checkSquareBrackets toks = true
        · exact ⟨hp, hq⟩
        · rw [Bool.not_eq_true] at hq
          rw [hq] at h
          simp at h
      · rw [Bool.not_eq_true] at hp
        rw [hp] at h
        simp at h
    next r hne hv =>
      exact absurd h hv

theorem eval_walk_suffix (pf : List Char → ValRes) :
    ∀ (l : List EToken) (cur : EToken) (ts acc : List EToken),
      evalIsValidArray pf (l ++ cur :: ts) acc true = ValRes.valid →
      evalIsNextTokenValid pf cur ts = ValRes.valid := by
  intro l
  induction l with
  | nil =>
    intro cur ts acc h
    rw [List.nil_append] at h
    rw [evalIsValidArray] at h
    cases hx : evalIsNextTokenValid pf cur ts with
    | valid => rfl
    | invalid m => rw [hx] at h; simp at h
    | diverge => rw [hx] at h; simp at h
  | cons x l ih =>
    intro cur ts acc h
    rw [List.cons_append] at h
    rw [evalIsValidArray] at h
    cases hx : evalIsNextTokenValid pf x (l ++ cur :: ts) with
    | valid => rw [hx] at h; exact ih cur ts (acc ++ [x]) h
    | invalid m => rw [hx] at h; simp at h
    | diverge => rw [hx] at h; simp at h

theorem eval_walk_first (pf : List Char → ValRes) :
    ∀ (rest acc : List EToken),
      evalIsValidArray pf rest acc true = ValRes.valid →
      ∀ (a : EToken) (as' : List EToken), acc ++ rest = a :: as' →
        evalIsNextTokenValid pf a as' = ValRes.valid := by
  intro rest
  induction rest with
  | nil =>
    intro acc h a as' hsplit
    rw [List.append_nil] at hsplit
    subst hsplit
    rw [evalIsValidArray] at h
    exact h
  | cons x t ih =>
    intro acc h a as' hsplit
    rw [evalIsValidArray] at h
    cases hx : evalIsNextTokenValid pf x t with
    | valid =>
      rw [hx] at h
      exact ih (acc ++ [x]) h a as' (by simpa using hsplit)
    | invalid m => rw [hx] at h; simp at h
    | diverge => rw [hx] at h; simp at h

theorem eval_start_inv (pf : List Char → ValRes)
    (t1 t2 : EToken) (ts : List EToken)
    (h : evalIsValidArray pf (t1 :: t2 :: ts) [] false = ValRes.valid) :
    evalValidStart t1 = true ∧
      evalIsValidArray pf (t2 :: ts) [t1] true = ValRes.valid := by
  rw [evalIsValidArray] at h
  by_cases hs : evalValidStart t1 = true
  · rw [hs] at h
    simp only [if_true] at h
    exact ⟨hs, h⟩
  · rw [Bool.not_eq_true] at hs
    rw [hs] at h
    simp at h

/-- Every adjacent pair of a token stream accepted by the eval walk
passes the successor check of the earlier token of the pair. -/
theorem eval_adjacent (pf : List Char → ValRes) (toks : List EToken)
    (h : evalIsValidArray pf toks [] false = ValRes.valid)
    (l : List EToken) (cur nxt : EToken) (r : List EToken)
    (hsplit : toks = l ++ cur :: nxt :: r) :
    evalIsNextTokenValid pf cur (nxt :: r) = ValRes.valid := by
  subst hsplit
  cases l with
  | nil =>
    have h2 := (eval_start_inv pf cur nxt r (by simpa using h)).2
    exact eval_walk_first pf (nxt :: r) [cur] h2 cur (nxt :: r) rfl
  | cons x l' =>
    obtain ⟨y, ys, hy⟩ : ∃ y ys, l' ++ cur :: nxt :: r = y :: ys := by
      cases hl : l' ++ cur :: nxt :: r with
      | nil => simp at hl
      | cons y ys => exact ⟨y, ys, rfl⟩
    rw [List.cons_append, hy] at h
    have h2 := (eval_start_inv pf x y ys h).2
    rw [← hy] at h2
    exact eval_walk_suffix pf l' cur (nxt :: r) [x] h2

/-- Inversion of a successful eval parse. -/
theorem parseEvalF_valid_inv (reg : Registry) (fuel : Nat) (s : List Char)
    (schema : CollectionSchema)
    (h : parseEvalF reg (fuel + 1) s schema = ValRes.valid) :
    ∃ toks, evalTokenizerF (s.length + 1) s [] = some toks ∧
      evalIsValidArray (fun c => parseFilterF reg fuel c schema)
        toks [] false = ValRes.valid ∧
      evalCheckSquareBrackets toks = true := by
  rw [parseEvalF] at h
  split at h
  next heq => simp at h
  next toks heq =>
    refine ⟨toks, heq, ?_⟩
    split at h
    next hv =>
      refine ⟨hv, ?_⟩
      by_cases hq : evalCheckSquareBrackets toks = true
      · exact hq
      · rw [Bool.not_eq_true] at hq
        rw [hq] at h
        simp at h
    next r hne hv =>
      exact absurd h hv

theorem sort_walk_suffix (pe : List Char → ValRes) (schema : CollectionSchema) :
    ∀ (l : List SToken) (cur : SToken) (ts acc : List SToken),
      sortIsValidArray pe schema (l ++ cur :: ts) acc = ValRes.valid →
      sortIsValid pe schema cur ts = ValRes.valid := by
  intro l
  induction l with
  | nil =>
    intro cur ts acc h
    rw [List.nil_append] at h
    rw [sortIsValidArray] at h
    cases hx : sortIsValid pe schema cur ts with
    | valid => rfl
    | invalid m => rw [hx] at h; simp at h
    | diverge => rw [hx] at h; simp at h
  | cons x l ih =>
    intro cur ts acc h
    rw [List.cons_append] at h
    rw [sortIsValidArray] at h
    cases hx : sortIsValid pe schema x (l ++ cur :: ts) with
    | valid => rw [hx] at h; exact ih cur ts (acc ++ [x]) h
    | invalid m => rw [hx] at h; simp at h
    | diverge => rw [hx] at h; simp at h

theorem sort_walk_first (pe : List Char → ValRes) (schema : CollectionSchema) :
    ∀ (rest acc : List SToken),
      sortIsValidArray pe schema rest acc = ValRes.valid →
      ∀ (a : SToken) (as' : List SToken), acc ++ rest = a :: as' →
        sortIsValid pe schema a as' = ValRes.valid := by
  intro rest
  induction rest with
  | nil =>
    intro acc h a as' hsplit
    rw [List.append_nil] at hsplit
    subst hsplit
    rw [sortIsValidArray] at h
    exact h
  | cons x t ih =>
    intro acc h a as' hsplit
    rw [sortIsValidArray] at h
    cases hx : sortIsValid pe schema x t with
    | valid =>
      rw [hx] at h
      exact ih (acc ++ [x]) h a as' (by simpa using hsplit)
    | invalid m => rw [hx] at h; simp at h
    | diverge => rw [hx] at h; simp at h

/-- Every token of a stream accepted by the sort walk passes its own
successor check (the sort walk has no special first-token case). -/
theorem sort_every_token (pe : List Char → ValRes) (schema : CollectionSchema)
    (toks : List SToken)
    (h : sortIsValidArray pe schema toks [] = ValRes.valid)
    (l : List SToken) (cur : SToken) (r : List SToken)
    (hsplit : toks = l ++ cur :: r) :
    sortIsValid pe schema cur r = ValRes.valid := by
  subst hsplit
  exact sort_walk_suffix pe schema l cur r [] h

/-- Inversion of a successful sort parse. -/
theorem sortParseF_valid_inv (reg : Registry) (fuel : Nat) (s : List Char)
    (schema : CollectionSchema)
    (h : sortParseF reg (fuel + 1) s schema = ValRes.valid) :
    ∃ toks, sortTokenizerF (s.length + 1) s [] = some toks ∧
      sortIsValidArray (fun c => parseEvalF reg fuel c schema) schema
        toks [] = ValRes.valid := by
  rw [sortParseF] at h
  split at h
  next heq => simp at h
  next toks heq =>
    refine ⟨toks, heq, ?_⟩
    split at h
    next hv => exact hv
    next m hv => simp at h
    next hv => simp at h

/-! ## Scanner lemmas for the `-` and `.` branches -/

/-- No `TokenMap` key starts with `-`. -/
theorem tokenMap_dash (l : List Char) : tokenMap ('-' :: l) = none := by
  simp [tokenMap, str, List.cons.injEq]

/-- A scan position starting with `-` always takes the identifier/literal
branch of the filter tokenizer: `-` is a `Char` of the identifier
alphabet, a reference or operator read never matches, so `ReadString`
(never `ReadNum`) consumes the text. -/
theorem tokenizerF_dash (schema : CollectionSchema) (fuel : Nat)
    (cs : List Char) (accT : List FToken) :
    tokenizerF schema (fuel + 1) ('-' :: cs) accT =
      (match readString ('-' :: cs) with
       | (s, rest) =>
         match fieldTypeOf schema s with
         | some ty => tokenizerF schema fuel rest (accT ++ [FToken.ident s ty])
         | none => tokenizerF schema fuel rest (accT ++ [FToken.lit s])) := by
  have hesc : readEscapeToken ('-' :: cs) = none := rfl
  have href : refSplit ('-' :: cs) = none := rfl
  have hread : readToken ('-' :: cs) = none := by
    cases cs with
    | nil => rfl
    | cons c2 rest2 =>
      cases rest2 with
      | nil => rfl
      | cons c3 rest3 =>
        simp [readToken, refSplit, tokenMap_dash]
  rw [tokenizerF, hesc, hread, tokenMap_dash]
  simp [isCharTok]

/-! ## Divergence of the scanners on stuck inputs -/

/-- The filter tokenizer never terminates on `".5"`: the numeric branch
fires on the leading `.` but `ReadNum` consumes nothing, so the scan
position repeats forever (each round appends an empty numeric token). -/
theorem tokenizerF_dot_five :
    ∀ (n : Nat) (acc : List FToken),
      tokenizerF users n (str (".5")) acc = TokRes.diverge := by
  intro n
  induction n with
  | zero => intro acc; rfl
  | succ n ih =>
    intro acc
    have hstep : tokenizerF users (n + 1) (str (".5")) acc
        = tokenizerF users n (str (".5")) (acc ++ [FToken.num []]) := rfl
    rw [hstep]
    exact ih (acc ++ [FToken.num []])

/-- Whatever the fuel, the filter parse of `".5"` against `users` reports
divergence. -/
theorem parseFilterF_dot_five :
    ∀ (fuel : Nat),
      parseFilterF testRegistry fuel (str (".5")) users = ValRes.diverge := by
  intro fuel
  cases fuel with
  | zero => rfl
  | succ f =>
    rw [parseFilterF, tokenizerF_dot_five]

/-- The sort tokenizer never terminates on `"1"`: `ReadString` rejects the
leading digit and returns an empty identifier without consuming
anything. -/
theorem sortTokenizerF_one :
    ∀ (n : Nat) (acc : List SToken),
      sortTokenizerF n (str ("1")) acc = none := by
  intro n
  induction n with
  | zero => intro acc; rfl
  | succ n ih =>
    intro acc
    have hstep : sortTokenizerF (n + 1) (str ("1")) acc
        = sortTokenizerF n (str ("1")) (acc ++ [SToken.ident []]) := rfl
    rw [hstep]
    exact ih (acc ++ [SToken.ident []])

/-- Whatever the fuel, the sort parse of `"1"` against `users` reports
divergence. -/
theorem sortParseF_one :
    ∀ (fuel : Nat),
      sortParseF testRegistry fuel (str ("1")) users = ValRes.diverge := by
  intro fuel
  cases fuel with
  | zero => rfl
  | succ f =>
    rw [sortParseF, sortTokenizerF_one]

/-- Whatever the fuel, the eval parse of `"[(.5):3]"` against `users`
reports divergence: its embedded filter clause `".5"` makes the filter
validator diverge. -/
theorem parseEvalF_dot_five :
    ∀ (fuel : Nat),
      parseEvalF testRegistry fuel (str ("[(.5):3]")) users = ValRes.diverge := by
  intro fuel
  cases fuel with
  | zero => rfl
  | succ f =>
    rw [parseEvalF]
    have htk : evalTokenizerF ((str ("[(.5):3]")).length + 1) (str ("[(.5):3]")) []
        = some [EToken.lsq, EToken.fc (str (".5")) true,
            EToken.num (str ("3")), EToken.rsq] := by decide
    rw [htk]
    simp [evalIsValidArray, evalValidStart, evalIsNextTokenValid,
      evalIsValidFilterClause, parseFilterF_dot_five, wrapFilterError]

/-- Search for a contiguous occurrence of `pat` in a character list. -/
def hasInfix (pat : List Char) : List Char → Bool
  | [] => List.isPrefixOf pat []
  | c :: rest => List.isPrefixOf pat (c :: rest) || hasInfix pat rest

/-! ## Claims -/

/-- C1, corrected: a reference token `$B(clause)` checked against schema
`A` is `Valid` only if `A`'s collection name is registered, `B` is
registered, the reverse index shows `B` declares a field referencing
`A`, and the recursive validation of `clause` against `B`'s registered
schema succeeds; when that recursive validation fails, the inner error
is wrapped as ``[Error on filter for joined collection `B`]: <inner
error>`` — with backticks around `B`, not the apostrophes the claim
states. -/
theorem spec_C1 :
    (∀ (recurse : List Char → CollectionSchema → ValRes) (reg : Registry)
        (schema : CollectionSchema) (coll clause : List Char) (next : List FToken),
        isValidJoin recurse reg schema coll clause next = ValRes.valid →
          (lookupCollection reg schema.name).isSome = true ∧
          (lookupCollection reg coll).isSome = true ∧
          isReferencedIn reg schema.name coll = true ∧
          ∀ b, lookupCollection reg coll = some b → recurse clause b = ValRes.valid) ∧
    (∀ (recurse : List Char → CollectionSchema → ValRes) (reg : Registry)
        (schema : CollectionSchema) (coll clause : List Char) (next : List FToken)
        (b : CollectionSchema) (e : List Char),
        lookupCollection reg schema.name ≠ none →
        lookupCollection reg coll = some b →
        isReferencedIn reg schema.name coll = true →
        recurse clause b = ValRes.invalid e →
        isValidJoin recurse reg schema coll clause next =
          ValRes.invalid
            (str ("[Error on filter for joined collection `") ++ coll
              ++ str ("`]: ") ++ e)) ∧
    validateFilter testRegistry "$posts($users(name:=`John`))" users =
      ValRes.invalid
        (str ("[Error on filter for joined collection `posts`]: Collection `users` not referenced in `posts`")) := by
  refine ⟨?_, ?_, by decide⟩
  · intro recurse reg schema coll clause next h
    rw [isValidJoin.eq_def] at h
    cases ha : lookupCollection reg schema.name with
    | none => rw [ha] at h; simp at h
    | some a =>
      rw [ha] at h
      cases hb : lookupCollection reg coll with
      | none => rw [hb] at h; simp at h
      | some joined =>
        rw [hb] at h
        by_cases hr : isReferencedIn reg schema.name coll = true
        · rw [hr] at h
          simp only [if_true] at h
          refine ⟨by simp, by simp, hr, ?_⟩
          intro b hb2
          have hb3 : joined = b := Option.some.inj hb2
          subst hb3
          cases hrec : recurse clause joined with
          | valid => rfl
          | invalid e => rw [hrec] at h; simp at h
          | diverge => rw [hrec] at h; simp at h
        · rw [Bool.not_eq_true] at hr
          rw [hr] at h
          simp at h
  · intro recurse reg schema coll clause next b e ha hb hr hrec
    rw [isValidJoin.eq_def]
    cases ha2 : lookupCollection reg schema.name with
    | none => exact absurd ha2 ha
    | some a =>
      rw [hb, hr]
      simp only [if_true]
      rw [hrec]

/-- Witness for C1: in the test registry, `users` and `posts` are
registered and `posts` references `users`, but the inner clause
`$users(name:=\`John\`)` fails against `posts`, so the join check
produces exactly the wrapped (backticked) error. -/
theorem spec_C1_witness :
    isValidJoin (fun c b => parseFilterF testRegistry 3 c b) testRegistry users
      (str ("posts")) (str ("$users(name:=`John`)")) [] =
      ValRes.invalid
        (str ("[Error on filter for joined collection `posts`]: Collection `users` not referenced in `posts`")) := by
  have h := spec_C1.2.1 (fun c b => parseFilterF testRegistry 3 c b) testRegistry
    users (str ("posts")) (str ("$users(name:=`John`)")) [] posts
    (str ("Collection `users` not referenced in `posts`"))
    (by decide) (by decide) (by decide) (by decide)
  exact h

/-- Counterexample for C1 as stated: the wrap uses backticks around the
joined collection's name, so the message differs from the claimed
apostrophe form `[Error on filter for joined collection 'posts']`. -/
theorem spec_C1_cex :
    validateFilter testRegistry "$posts((id:*" users =
      ValRes.invalid
        (str ("[Error on filter for joined collection `posts`]: Parentheses are not balanced")) ∧
    str ("[Error on filter for joined collection `posts`]: Parentheses are not balanced") ≠
      str ("[Error on filter for joined collection 'posts']: Parentheses are not balanced") := by
  exact ⟨by decide, by decide⟩

/-- C3: a `Valid` filter parse implies its token stream has exactly
balanced parentheses and exactly balanced `:[`/`]` brackets, and the
concrete expressions with one extra `(` or a missing `]` are
rejected with the respective balance errors. -/
theorem spec_C3 :
    (∀ (reg : Registry) (fuel : Nat) (s : List Char) (schema : CollectionSchema)
        (toks : List FToken),
        parseFilterF reg (fuel + 1) s schema = ValRes.valid →
        tokenizerF schema (s.length + 1) s [] = TokRes.ok toks →
        checkParentheses toks = true ∧ checkSquareBrackets toks = true) ∧
    validateFilter testRegistry "((age := 20)" users =
      ValRes.invalid (str ("Parentheses are not balanced")) ∧
    validateFilter testRegistry "age:[20, 30" users =
      ValRes.invalid (str ("Square brackets are not balanced")) := by
  refine ⟨?_, by decide, by decide⟩
  intro reg fuel s schema toks h ht
  obtain ⟨toks', ht', _, hp, hq⟩ := parseFilterF_valid_inv reg fuel s schema h
  rw [ht] at ht'
  cases ht'
  exact ⟨hp, hq⟩

/-- Witness for C3: the empty expression parses as `Valid`, and its empty
token stream trivially balances. -/
theorem spec_C3_witness :
    checkParentheses [] = true ∧ checkSquareBrackets [] = true :=
  spec_C3.1 testRegistry 0 [] users [] (by decide) (by decide)

/-- C7, corrected: `ReadNum` itself accepts an optional leading `-`, then
digits, then at most one `.` followed by a digit, leaving a second `.`
or a digit-less `.` unconsumed; but the filter tokenizer reaches
`ReadNum` only when the position starts with a digit or `.`, because
`-` belongs to the identifier alphabet: a `-`-leading position is
always consumed by `ReadString`, so `"-5"` is emitted as a literal
token, not a numeric token. -/
theorem spec_C7 :
    readNum (str ("-5")) = (str ("-5"), []) ∧
    readNum (str ("-5.25xyz")) = (str ("-5.25"), str ("xyz")) ∧
    readNum (str ("1.2.3")) = (str ("1.2"), str (".3")) ∧
    readNum (str ("3.x")) = (str ("3"), str (".x")) ∧
    readNum (str ("5-")) = (str ("5"), str ("-")) ∧
    (∀ (schema : CollectionSchema) (fuel : Nat) (cs : List Char)
        (accT : List FToken),
        tokenizerF schema (fuel + 1) ('-' :: cs) accT =
          (match readString ('-' :: cs) with
           | (s, rest) =>
             match fieldTypeOf schema s with
             | some ty => tokenizerF schema fuel rest (accT ++ [FToken.ident s ty])
             | none => tokenizerF schema fuel rest (accT ++ [FToken.lit s]))) ∧
    tokenizerF users ((str ("-5")).length + 1) (str ("-5")) [] =
      TokRes.ok [FToken.lit (str ("-5"))] := by
  exact ⟨by decide, by decide, by decide, by decide, by decide,
    tokenizerF_dash, by decide⟩

/-- Counterexample for C7 as stated: on the input `"-5"` the filter
tokenizer emits a literal token, not the claimed numeric token. -/
theorem spec_C7_cex :
    tokenizerF users ((str ("-5")).length + 1) (str ("-5")) [] =
      TokRes.ok [FToken.lit (str ("-5"))] ∧
    TokRes.ok [FToken.lit (str ("-5"))] ≠ TokRes.ok [FToken.num (str ("-5"))] := by
  exact ⟨by decide, by decide⟩

/-- C8, code bug: the validators are not total.  The filter tokenizer
loops forever on `".5"` (appending empty numeric tokens without
consuming input), the sort tokenizer loops forever on `"1"` (an empty
identifier read without progress), and the eval validator inherits the
filter divergence through an embedded clause; each parse reports
divergence at every fuel, so no result — `Valid` or error — is ever
produced, where the claim (and the spec's totality policy) promises
one. -/
theorem spec_C8 :
    (∀ (n : Nat) (acc : List FToken),
        tokenizerF users n (str (".5")) acc = TokRes.diverge) ∧
    (∀ (fuel : Nat),
        parseFilterF testRegistry fuel (str (".5")) users = ValRes.diverge) ∧
    (∀ (fuel : Nat),
        sortParseF testRegistry fuel (str ("1")) users = ValRes.diverge) ∧
    (∀ (fuel : Nat),
        parseEvalF testRegistry fuel (str ("[(.5):3]")) users = ValRes.diverge) ∧
    validateFilter testRegistry ".5" users = ValRes.diverge ∧
    validateSort testRegistry "1" users = ValRes.diverge ∧
    validateEval testRegistry "[(.5):3]" users = ValRes.diverge :=
  ⟨tokenizerF_dot_five, parseFilterF_dot_five, sortParseF_one, parseEvalF_dot_five,
    parseFilterF_dot_five _, sortParseF_one _, parseEvalF_dot_five _⟩

/-- C9, corrected: a single-token stream is join-validated when the token
is a reference; a lone valid-start token (`(`, identifier, number,
literal) is rejected with `... cannot be the only token`; any other
lone token is rejected with `Invalid start token: ...` instead — not
with the cannot-be-the-only-token message the claim states for every
non-reference token. -/
theorem spec_C9 :
    (∀ (recurse : List Char → CollectionSchema → ValRes) (reg : Registry)
        (schema : CollectionSchema) (t : FToken),
        isValidArray recurse reg schema [t] [] false =
          match t with
          | FToken.ref coll clause => isValidJoin recurse reg schema coll clause []
          | _ =>
            if validStart t then
              ValRes.invalid
                (str ("Invalid token sequence: ") ++ getTokenType t
                  ++ str (" cannot be the only token"))
            else ValRes.invalid (str ("Invalid start token: ") ++ getTokenType t)) ∧
    validateFilter testRegistry "age" users =
      ValRes.invalid
        (str ("Invalid token sequence: identifier cannot be the only token")) ∧
    validateFilter testRegistry "20" users =
      ValRes.invalid
        (str ("Invalid token sequence: num token cannot be the only token")) ∧
    validateFilter testRegistry "`x`" users =
      ValRes.invalid
        (str ("Invalid token sequence: literal token cannot be the only token")) ∧
    validateFilter testRegistry "$posts(author:=20)" users = ValRes.valid := by
  refine ⟨?_, by decide, by decide, by decide, by decide⟩
  intro recurse reg schema t
  cases t <;> rfl

/-- Counterexample for C9 as stated: the stream of `":= "` is the single
non-reference token `:=`, yet the message is `Invalid start token`
and does not mention `cannot be the only token`. -/
theorem spec_C9_cex :
    tokenizerF users ((str (":= ")).length + 1) (str (":= ")) [] =
      TokRes.ok [FToken.eq] ∧
    validateFilter testRegistry ":= " users =
      ValRes.invalid (str ("Invalid start token: `:=`")) ∧
    hasInfix (str ("cannot be the only token")) (str ("Invalid start token: `:=`"))
      = false := by
  exact ⟨by decide, by decide, by decide⟩

/-- C10: on the empty input string all three validators return `Valid`:
the empty token stream passes the walk vacuously and both balance
checks trivially. -/
theorem spec_C10 (reg : Registry) (schema : CollectionSchema) :
    validateFilter reg "" schema = ValRes.valid ∧
    validateEval reg "" schema = ValRes.valid ∧
    validateSort reg "" schema = ValRes.valid :=
  ⟨rfl, rfl, rfl⟩

/-- The successor of an identifier is accepted exactly when the operator
set of the field's type admits it. -/
theorem isValidIdentifier_valid_iff (fields : List CollectionField)
    (name : List Char) (nxt : FToken) (r : List FToken) :
    isValidIdentifier name fields (nxt :: r) = ValRes.valid ↔
      allowedAfterIdent fields name nxt = true := by
  rw [isValidIdentifier]
  by_cases hok : allowedAfterIdent fields name nxt = true
  · simp [hok]
  · rw [Bool.not_eq_true] at hok
    simp [hok]

/-- C2: the operators accepted immediately after an identifier are
exactly the set `typeToOperatorSet` assigns to the field's type — the
source's `TypeToOperatorMap` table (string: `:=` `:` `:!=` `:[`;
int32/int64/float: `:[` `:<` `:>` `:=` `:>=` `:<=` `:!=`; bool: `:=`
`:!=`; numeric arrays: `:<` `:>` `:=`; bool[]: `:=`) — and a `Valid`
filter parse implies every identifier in the token stream is followed
by an operator of the set of its field's type; a successor outside the
set therefore makes the parse non-`Valid`. -/
theorem spec_C2 :
    (∀ (fields : List CollectionField) (name : List Char) (nxt : FToken)
        (r : List FToken),
        isValidIdentifier name fields (nxt :: r) = ValRes.valid ↔
          allowedAfterIdent fields name nxt = true) ∧
    (∀ t, typeToOperatorSet FieldType.string t =
      (t = FToken.eq || t = FToken.colon || t = FToken.neq || t = FToken.lsq)) ∧
    (∀ t, typeToOperatorSet FieldType.int32 t =
      (t = FToken.lt || t = FToken.gt || t = FToken.eq || t = FToken.gte
        || t = FToken.lte || t = FToken.neq || t = FToken.lsq)) ∧
    (∀ t, typeToOperatorSet FieldType.bool t = (t = FToken.eq || t = FToken.neq)) ∧
    (∀ t, typeToOperatorSet FieldType.boolArr t = decide (t = FToken.eq)) ∧
    (∀ (reg : Registry) (fuel : Nat) (s : List Char) (schema : CollectionSchema)
        (toks l : List FToken) (name : List Char) (ty : FieldType) (nxt : FToken)
        (r : List FToken),
        parseFilterF reg (fuel + 1) s schema = ValRes.valid →
        tokenizerF schema (s.length + 1) s [] = TokRes.ok toks →
        toks = l ++ FToken.ident name ty :: nxt :: r →
        allowedAfterIdent schema.fields name nxt = true) ∧
    (∀ (reg : Registry) (fuel : Nat) (s : List Char) (schema : CollectionSchema)
        (toks l : List FToken) (name : List Char) (ty : FieldType) (nxt : FToken)
        (r : List FToken),
        tokenizerF schema (s.length + 1) s [] = TokRes.ok toks →
        toks = l ++ FToken.ident name ty :: nxt :: r →
        allowedAfterIdent schema.fields name nxt = false →
        parseFilterF reg (fuel + 1) s schema ≠ ValRes.valid) := by
  refine ⟨isValidIdentifier_valid_iff, fun t => rfl, fun t => rfl, fun t => rfl,
    fun t => rfl, ?_, ?_⟩
  · intro reg fuel s schema toks l name ty nxt r h ht hsplit
    obtain ⟨toks', ht', hv, _, _⟩ := parseFilterF_valid_inv reg fuel s schema h
    rw [ht] at ht'
    cases ht'
    have hadj := filter_adjacent (fun c sch => parseFilterF reg fuel c sch) reg schema
      toks hv l (FToken.ident name ty) nxt r hsplit
    rw [isNextTokenValid] at hadj
    exact (isValidIdentifier_valid_iff schema.fields name nxt r).mp hadj
  · intro reg fuel s schema toks l name ty nxt r ht hsplit hbad h
    obtain ⟨toks', ht', hv, _, _⟩ := parseFilterF_valid_inv reg fuel s schema h
    rw [ht] at ht'
    cases ht'
    have hadj := filter_adjacent (fun c sch => parseFilterF reg fuel c sch) reg schema
      toks hv l (FToken.ident name ty) nxt r hsplit
    rw [isNextTokenValid] at hadj
    have := (isValidIdentifier_valid_iff schema.fields name nxt r).mp hadj
    rw [hbad] at this
    cases this

/-- Witness for C2: `age` is an `int32` field of `users`, and `:=` lies in
the int32 operator set, so an `age` identifier followed by `:=` passes
the successor check. -/
theorem spec_C2_witness :
    isValidIdentifier (str ("age")) users.fields [FToken.eq] = ValRes.valid :=
  (spec_C2.1 users.fields (str ("age")) FToken.eq []).mpr (by decide)

/-- C5: in a `Valid` filter parse every token following `&&` and every
token following `||` is `(`, an identifier, or a reference token; any
other successor fails the `&&`/`||` successor check with the
corresponding error, so the parse cannot be `Valid`. -/
theorem spec_C5 :
    (∀ (reg : Registry) (fuel : Nat) (s : List Char) (schema : CollectionSchema)
        (toks l : List FToken) (nxt : FToken) (r : List FToken),
        parseFilterF reg (fuel + 1) s schema = ValRes.valid →
        tokenizerF schema (s.length + 1) s [] = TokRes.ok toks →
        toks = l ++ FToken.land :: nxt :: r →
        (nxt = FToken.lparen ∨ (∃ n ty, nxt = FToken.ident n ty) ∨
          ∃ c cl, nxt = FToken.ref c cl)) ∧
    (∀ (reg : Registry) (fuel : Nat) (s : List Char) (schema : CollectionSchema)
        (toks l : List FToken) (nxt : FToken) (r : List FToken),
        parseFilterF reg (fuel + 1) s schema = ValRes.valid →
        tokenizerF schema (s.length + 1) s [] = TokRes.ok toks →
        toks = l ++ FToken.lor :: nxt :: r →
        (nxt = FToken.lparen ∨ (∃ n ty, nxt = FToken.ident n ty) ∨
          ∃ c cl, nxt = FToken.ref c cl)) ∧
    (∀ (nxt : FToken) (r : List FToken),
        ¬(nxt = FToken.lparen ∨ (∃ n ty, nxt = FToken.ident n ty) ∨
            ∃ c cl, nxt = FToken.ref c cl) →
        isValidToken FToken.land (nxt :: r) =
          ValRes.invalid
            (str ("Invalid token sequence: `&&` followed by ") ++ getTokenType nxt) ∧
        isValidToken FToken.lor (nxt :: r) =
          ValRes.invalid
            (str ("Invalid token sequence: `||` followed by ") ++ getTokenType nxt)) := by
  refine ⟨?_, ?_, ?_⟩
  · intro reg fuel s schema toks l nxt r h ht hsplit
    obtain ⟨toks', ht', hv, _, _⟩ := parseFilterF_valid_inv reg fuel s schema h
    rw [ht] at ht'
    cases ht'
    have hadj := filter_adjacent (fun c sch => parseFilterF reg fuel c sch) reg schema
      toks hv l FToken.land nxt r hsplit
    cases nxt
    case lparen => exact Or.inl rfl
    case ident n ty => exact Or.inr (Or.inl ⟨n, ty, rfl⟩)
    case ref c cl => exact Or.inr (Or.inr ⟨c, cl, rfl⟩)
    all_goals
      simp [isNextTokenValid, isOperatorMapKey, isValidToken, operatorMapValid] at hadj
  · intro reg fuel s schema toks l nxt r h ht hsplit
    obtain ⟨toks', ht', hv, _, _⟩ := parseFilterF_valid_inv reg fuel s schema h
    rw [ht] at ht'
    cases ht'
    have hadj := filter_adjacent (fun c sch => parseFilterF reg fuel c sch) reg schema
      toks hv l FToken.lor nxt r hsplit
    cases nxt
    case lparen => exact Or.inl rfl
    case ident n ty => exact Or.inr (Or.inl ⟨n, ty, rfl⟩)
    case ref c cl => exact Or.inr (Or.inr ⟨c, cl, rfl⟩)
    all_goals
      simp [isNextTokenValid, isOperatorMapKey, isValidToken, operatorMapValid] at hadj
  · intro nxt r hno
    have hand : operatorMapValid FToken.land nxt = false := by
      cases nxt
      case lparen => exact absurd (Or.inl rfl) hno
      case ident n ty => exact absurd (Or.inr (Or.inl ⟨n, ty, rfl⟩)) hno
      case ref c cl => exact absurd (Or.inr (Or.inr ⟨c, cl, rfl⟩)) hno
      all_goals rfl
    have hor : operatorMapValid FToken.lor nxt = false := by
      cases nxt
      case lparen => exact absurd (Or.inl rfl) hno
      case ident n ty => exact absurd (Or.inr (Or.inl ⟨n, ty, rfl⟩)) hno
      all_goals rfl
    constructor
    · rw [isValidToken, hand]
      rfl
    · rw [isValidToken, hor]
      rfl

/-- Witness for C5: a `:=` token may follow neither `&&` nor `||`; both
checks answer with the corresponding invalid-sequence message. -/
theorem spec_C5_witness :
    isValidToken FToken.land [FToken.eq] =
      ValRes.invalid
        (str ("Invalid token sequence: `&&` followed by ") ++ getTokenType FToken.eq) ∧
    isValidToken FToken.lor [FToken.eq] =
      ValRes.invalid
        (str ("Invalid token sequence: `||` followed by ") ++ getTokenType FToken.eq) :=
  spec_C5.2.2 FToken.eq [] (by simp)

/-- A sort identifier check can only succeed for a sortable name or the
`_text_match_score` pseudo-field. -/
theorem sortIsValidIdentifier_valid_name (schema : CollectionSchema)
    (name : List Char) (next : List SToken)
    (h : sortIsValidIdentifier schema name next = ValRes.valid) :
    sortableName schema name = true ∨ name = str ("_text_match_score") := by
  rw [sortIsValidIdentifier.eq_def] at h
  by_cases hc : (sortableName schema name || name = str ("_text_match_score")) = true
  · rw [Bool.or_eq_true] at hc
    rcases hc with h1 | h1
    · exact Or.inl h1
    · exact Or.inr (of_decide_eq_true h1)
  · rw [Bool.not_eq_true] at hc
    rw [hc] at h
    by_cases hf : isFieldName schema name = true
    · rw [hf] at h
      simp at h
    · rw [Bool.not_eq_true] at hf
      rw [hf] at h
      simp at h

/-- C4, corrected: a sort identifier is accepted exactly when it names a
field with `sort: true`, a *numeric* (`int32`/`int64`/`float`) field
not explicitly marked `sort: false`, or the pseudo-field
`_text_match_score` — plain string fields without `sort: true` are
*not* sortable; every other identifier yields a schema error, and a
`Valid` sort parse only contains identifiers of the accepted kinds. -/
theorem spec_C4 :
    (∀ (schema : CollectionSchema) (name : List Char) (rest : List SToken),
        sortIsValidIdentifier schema name (SToken.colon :: rest) = ValRes.valid ↔
          (sortableName schema name = true ∨ name = str ("_text_match_score"))) ∧
    (∀ (schema : CollectionSchema) (name : List Char),
        sortableName schema name = true ↔
          ∃ f, f ∈ schema.fields ∧ f.name = name ∧
            (f.sort = some true ∨
              ((f.type = FieldType.int32 ∨ f.type = FieldType.float ∨
                  f.type = FieldType.int64) ∧ f.sort ≠ some false))) ∧
    (∀ (schema : CollectionSchema) (name : List Char) (next : List SToken),
        sortableName schema name = false → name ≠ str ("_text_match_score") →
        sortIsValidIdentifier schema name next =
          (if isFieldName schema name then
            ValRes.invalid
              (str ("Invalid identifier: ") ++ name
                ++ str (" is not a sortable field."))
          else
            ValRes.invalid
              (str ("Invalid identifier: ") ++ name
                ++ str (" is not a field of collection ") ++ schema.name
                ++ str (".")))) ∧
    (∀ (reg : Registry) (fuel : Nat) (s : List Char) (schema : CollectionSchema)
        (toks l : List SToken) (name : List Char) (r : List SToken),
        sortParseF reg (fuel + 1) s schema = ValRes.valid →
        sortTokenizerF (s.length + 1) s [] = some toks →
        toks = l ++ SToken.ident name :: r →
        (sortableName schema name = true ∨ name = str ("_text_match_score"))) := by
  refine ⟨?_, ?_, ?_, ?_⟩
  · intro schema name rest
    constructor
    · exact sortIsValidIdentifier_valid_name schema name (SToken.colon :: rest)
    · intro hc
      rw [sortIsValidIdentifier.eq_def]
      have hc' : (sortableName schema name || name = str ("_text_match_score")) = true := by
        rcases hc with h1 | h1
        · simp [h1]
        · simp [h1]
      rw [hc']
      rfl
  · intro schema name
    rw [sortableName, List.any_eq_true]
    constructor
    · rintro ⟨f, hf, hcond⟩
      rw [Bool.and_eq_true] at hcond
      obtain ⟨hname, hsort⟩ := hcond
      rw [isSortableField, Bool.or_eq_true] at hsort
      refine ⟨f, hf, of_decide_eq_true hname, ?_⟩
      rcases hsort with h1 | h1
      · exact Or.inl (of_decide_eq_true h1)
      · rw [Bool.and_eq_true] at h1
        obtain ⟨h2, h3⟩ := h1
        refine Or.inr ⟨?_, ?_⟩
        · rw [Bool.or_eq_true, Bool.or_eq_true] at h2
          rcases h2 with (h5 | h5) | h4
          · exact Or.inl (of_decide_eq_true h5)
          · exact Or.inr (Or.inl (of_decide_eq_true h5))
          · exact Or.inr (Or.inr (of_decide_eq_true h4))
        · intro hbad
          rw [hbad] at h3
          simp at h3
    · rintro ⟨f, hf, hname, hcond⟩
      refine ⟨f, hf, ?_⟩
      rw [Bool.and_eq_true]
      refine ⟨decide_eq_true hname, ?_⟩
      rw [isSortableField, Bool.or_eq_true]
      rcases hcond with h1 | ⟨h2, h3⟩
      · exact Or.inl (decide_eq_true h1)
      · refine Or.inr ?_
        rw [Bool.and_eq_true]
        refine ⟨?_, by simp [h3]⟩
        rcases h2 with h4 | h4 | h4
        · simp [h4]
        · simp [h4]
        · simp [h4]
  · intro schema name next hno htms
    rw [sortIsValidIdentifier.eq_def]
    have hc : (sortableName schema name || name = str ("_text_match_score")) = false := by
      rw [Bool.or_eq_false_iff]
      refine ⟨hno, ?_⟩
      rw [decide_eq_false_iff_not]
      exact htms
    rw [hc]
    by_cases hf : isFieldName schema name = true
    · rw [hf]
      simp only [if_true]
      rfl
    · rw [Bool.not_eq_true] at hf
      rw [hf]
      rfl
  · intro reg fuel s schema toks l name r h ht hsplit
    obtain ⟨toks', ht', hv⟩ := sortParseF_valid_inv reg fuel s schema h
    rw [ht] at ht'
    cases ht'
    have hone := sort_every_token (fun c => parseEvalF reg fuel c schema) schema
      toks hv l (SToken.ident name) r hsplit
    rw [sortIsValid] at hone
    exact sortIsValidIdentifier_valid_name schema name r hone

/-- Witness for C4: `age` has `sort: true` in `users`, so `age` followed
by `:` passes the sort identifier check. -/
theorem spec_C4_witness :
    sortIsValidIdentifier users (str ("age")) [SToken.colon] = ValRes.valid :=
  (spec_C4.1 users (str ("age")) []).mpr (Or.inl (by decide))

/-- Counterexample for C4 as stated: `email` is a string field of `users`
that is not explicitly marked `sort: false`, yet sorting on it is
rejected as not sortable — the claim's `numeric/string` reading is
wrong for strings. -/
theorem spec_C4_cex :
    validateSort testRegistry "email:desc" users =
      ValRes.invalid
        (str ("Invalid token sequence: Invalid identifier: email is not a sortable field.")) ∧
    fieldTypeOf users (str ("email")) = some FieldType.string ∧
    (List.find? (fun f => f.name = str ("email")) users.fields).map
      (fun f => f.sort) = some none := by
  exact ⟨by decide, by decide, by decide⟩

/-- C6: an embedded eval filter clause is validated by the filter
validator against the very same schema and a failure is wrapped as
`[Error on filter]: <inner error>`; a bare (unbracketed) filter clause
followed by any further token is rejected (`a filter must be the only
token in _eval`); and a weight number is accepted exactly when it is
followed by `,` or `]`, which a `Valid` eval parse therefore
guarantees for every number of its token stream. -/
theorem spec_C6 :
    (∀ (reg : Registry) (fuel : Nat) (schema : CollectionSchema)
        (clause e : List Char) (v : List Char) (r : List EToken),
        parseFilterF reg fuel clause schema = ValRes.invalid e →
        evalIsValidFilterClause (fun c => parseFilterF reg fuel c schema) clause
            (EToken.num v :: r) true =
          ValRes.invalid (str ("[Error on filter]: ") ++ e) ∧
        evalIsValidFilterClause (fun c => parseFilterF reg fuel c schema) clause
            [] false =
          ValRes.invalid (str ("[Error on filter]: ") ++ e)) ∧
    (∀ (pf : List Char → ValRes) (clause : List Char) (t : EToken)
        (r : List EToken),
        evalIsValidFilterClause pf clause (t :: r) false =
          ValRes.invalid
            (str ("Invalid token: a filter must be the only token in _eval"))) ∧
    (∀ next, evalIsValidNumber next = ValRes.valid ↔
        ((∃ r, next = EToken.comma :: r) ∨ ∃ r, next = EToken.rsq :: r)) ∧
    (∀ (reg : Registry) (fuel : Nat) (s : List Char) (schema : CollectionSchema)
        (toks l : List EToken) (v : List Char) (rest : List EToken),
        parseEvalF reg (fuel + 1) s schema = ValRes.valid →
        evalTokenizerF (s.length + 1) s [] = some toks →
        toks = l ++ EToken.num v :: rest →
        ((∃ r, rest = EToken.comma :: r) ∨ ∃ r, rest = EToken.rsq :: r)) ∧
    validateEval testRegistry "[(invalid:=20):30]" users =
      ValRes.invalid
        (str ("[Error on filter]: Invalid token sequence: Literal Token `invalid` followed by `:=`")) := by
  refine ⟨?_, ?_, ?_, ?_, by decide⟩
  · intro reg fuel schema clause e v r hpf
    constructor
    · simp [evalIsValidFilterClause, hpf, wrapFilterError]
    · simp [evalIsValidFilterClause, hpf, wrapFilterError]
  · intro pf clause t r
    rfl
  · intro next
    cases next with
    | nil => simp [evalIsValidNumber]
    | cons t r => cases t <;> simp [evalIsValidNumber]
  · intro reg fuel s schema toks l v rest h ht hsplit
    obtain ⟨toks', ht', hv, _⟩ := parseEvalF_valid_inv reg fuel s schema h
    rw [ht] at ht'
    cases ht'
    cases rest with
    | cons nxt r =>
      have hadj := eval_adjacent (fun c => parseFilterF reg fuel c schema) toks hv
        l (EToken.num v) nxt r hsplit
      cases nxt
      case comma => exact Or.inl ⟨r, rfl⟩
      case rsq => exact Or.inr ⟨r, rfl⟩
      all_goals simp [evalIsNextTokenValid, evalIsValidNumber] at hadj
    | nil =>
      rw [hsplit] at hv
      cases l with
      | nil => simp [evalIsValidArray, evalValidStart] at hv
      | cons x l' =>
        obtain ⟨y, ys, hy⟩ : ∃ y ys, l' ++ [EToken.num v] = y :: ys := by
          cases hl : l' ++ [EToken.num v] with
          | nil => simp at hl
          | cons y ys => exact ⟨y, ys, rfl⟩
        rw [List.cons_append] at hv
        rw [hy] at hv
        have h2 := (eval_start_inv (fun c => parseFilterF reg fuel c schema) x y ys hv).2
        rw [← hy] at h2
        have h3 := eval_walk_suffix (fun c => parseFilterF reg fuel c schema)
          l' (EToken.num v) [] [x] h2
        simp [evalIsNextTokenValid, evalIsValidNumber] at h3

/-- Witness for C6: the clause `invalid:=20` fails the filter validator
against `users`, and an in-range eval clause followed by the weight 30
reports exactly the wrapped error. -/
theorem spec_C6_witness :
    evalIsValidFilterClause (fun c => parseFilterF testRegistry 1 c users)
        (str ("invalid:=20")) [EToken.num (str ("30"))] true =
      ValRes.invalid
        (str ("[Error on filter]: ")
          ++ str ("Invalid token sequence: Literal Token `invalid` followed by `:=`")) :=
  (spec_C6.1 testRegistry 1 users (str ("invalid:=20"))
    (str ("Invalid token sequence: Literal Token `invalid` followed by `:=`"))
    (str ("30")) [] (by decide)).1

end TypesenseTs
